import Mathlib

/-!
Verification of the resume-generation pipeline of
`resume-generator/backend` (routes/resume.py and agents/resume_agents.py).

Text is modelled as `List Char` (Python `str` is a sequence of code points;
`String.data` converts Lean string literals).  Each definition is a direct
translation of the corresponding Python function; the network and file-system
collaborators are out of scope, so the raw profile and repository records that
the GitHub client would produce are taken as explicit inputs.
-/

namespace ResumeGen

/-! ### Python `str.replace`

`str.replace(old, new)` replaces every non-overlapping occurrence of `old`,
scanning left to right.  The recursion consumes at least one character per
step, so a fuel argument initialised with the length of the text makes the
definition structural (and hence kernel-evaluable). -/

/-- One fuel-indexed pass of Python `str.replace old new` over a character
list.  When the pattern is a prefix of the remaining text, the replacement is
emitted and the matched characters are skipped; otherwise one character is
copied.  An empty pattern never matches (the code never calls `replace` with
an empty pattern). -/
def pyReplaceF (pat rep : List Char) : Nat → List Char → List Char
  | _, [] => []
  | 0, s => s
  | fuel + 1, c :: rest =>
    if pat ≠ [] ∧ pat.isPrefixOf (c :: rest) then
      rep ++ pyReplaceF pat rep fuel (List.drop (pat.length - 1) rest)
    else
      c :: pyReplaceF pat rep fuel rest

/-- Python `s.replace(pat, rep)` on character lists. -/
def pyReplace (pat rep s : List Char) : List Char :=
  pyReplaceF pat rep s.length s

/-- Does `pat` occur as a contiguous substring of `s`?  (`pat in s` in
Python.) -/
def occursIn (pat : List Char) : List Char → Bool
  | [] => pat.isPrefixOf []
  | c :: rest => pat.isPrefixOf (c :: rest) || occursIn pat rest

/-! ### The two sanitizers -/

/-- The opening brace character (code point 123). -/
def lbrace : Char := Char.ofNat 123

/-- The closing brace character (code point 125). -/
def rbrace : Char := Char.ofNat 125

/-- The replacement table of `sanitize` in `routes/resume.py`, in dict
insertion order: `&`, `%`, `$`, `#`, `_`, `{`, `}`, `~`, `^`, `\`, `<`, `>`,
`|`.  Every pattern is a single character. -/
def sanitizeReplacements : List (Char × List Char) :=
  [ ('&', "\\&".data),
    ('%', "\\%".data),
    ('$', "\\$".data),
    ('#', "\\#".data),
    ('_', "\\_".data),
    (lbrace, ('\\' :: [lbrace])),
    (rbrace, ('\\' :: [rbrace])),
    ('~', "\\textasciitilde\x7b\x7d".data),
    ('^', "\\textasciicircum\x7b\x7d".data),
    ('\\', "\\textbackslash\x7b\x7d".data),
    ('<', "\\textless\x7b\x7d".data),
    ('>', "\\textgreater\x7b\x7d".data),
    ('|', "$|$".data) ]

/-- The loop `for old, new in replacements.items(): text = text.replace(old, new)`
specialised to single-character patterns. -/
def applyCharReplacements (tbl : List (Char × List Char)) (s : List Char) : List Char :=
  tbl.foldl (fun t kv => pyReplace [kv.1] kv.2 t) s

/-- Function `sanitize` from `routes/resume.py`: empty input short-circuits, then
`re.sub(r'[^\x00-\x7F]+", "', text)` deletes every character with code point
at least 128, then the replacement table is applied in dict order. -/
def sanitize (s : List Char) : List Char :=
  if s = [] then []
  else applyCharReplacements sanitizeReplacements (s.filter (fun c => c.toNat < 128))

/-- The `latex_special_chars` loop of `ResumeWorkflow.escape_latex` in
`agents/resume_agents.py`, in dict insertion order, with the backslash entry
skipped (`if char != '\\'`). -/
def escapeLatexReplacements : List (Char × List Char) :=
  [ ('&', "\\&".data),
    ('%', "\\%".data),
    ('$', "\\$".data),
    ('#', "\\#".data),
    ('_', "\\_".data),
    (lbrace, ('\\' :: [lbrace])),
    (rbrace, ('\\' :: [rbrace])),
    ('~', "\\textasciitilde\x7b\x7d".data),
    ('^', "\\textasciicircum\x7b\x7d".data),
    ('<', "\\textless\x7b\x7d".data),
    ('>', "\\textgreater\x7b\x7d".data) ]

/-- Python `str.isprintable` restricted to the code points below 128 that can
reach the filter inside `escape_latex` (non-ASCII characters are removed
first): the printable ASCII characters are exactly 0x20–0x7E. -/
def pyIsPrintable (c : Char) : Bool := 32 ≤ c.toNat && c.toNat ≤ 126

/-- The whitespace characters removed by Python `str.strip()` (ASCII range):
space, tab, newline, carriage return, vertical tab, form feed. -/
def pyIsSpace (c : Char) : Bool :=
  c = ' ' || c = '\t' || c = '\n' || c = '\r' || c.toNat = 11 || c.toNat = 12

/-- Python `str.strip()`: drop whitespace from both ends. -/
def pyStrip (s : List Char) : List Char :=
  ((s.dropWhile pyIsSpace).reverse.dropWhile pyIsSpace).reverse

/-- Method `ResumeWorkflow.escape_latex`: empty input short-circuits; characters with
code point at least 128 are removed; backslashes are escaped first; the other
special characters are escaped in dict order; non-printable characters are
removed; finally the result is stripped. -/
def escape_latex (s : List Char) : List Char :=
  if s = [] then []
  else
    let t1 := s.filter (fun c => c.toNat < 128)
    let t2 := pyReplace ['\\'] "\\textbackslash\x7b\x7d".data t1
    let t3 := applyCharReplacements escapeLatexReplacements t2
    pyStrip (t3.filter pyIsPrintable)

/-! ### Raw GitHub data

The JSON records produced by the GitHub client, restricted to the fields the
pipeline reads.  An `Option` field models a dictionary key that may be absent
(`dict.get` with a default); fields read with a plain `[...]` access or
defaulted to an empty string or `0` are total. -/

/-- One repository record, together with the per-repository `languages` and
commit-count responses fetched inside the loop of `fetch_github_data`. -/
structure RawRepo where
  name : List Char
  /-- `none` models the `description` key being absent from the record. -/
  description : Option (List Char)
  fork : Bool
  stargazers_count : Nat
  forks_count : Nat
  created_at : List Char
  updated_at : List Char
  html_url : List Char
  /-- keys of the `languages_url` response -/
  languages : List (List Char)
  /-- `len(commits)` of the `commits_url` response -/
  commit_count : Nat
deriving DecidableEq

/-- The user record, restricted to the fields `fetch_github_data` reads.
`none` models an absent `name` key. -/
structure RawProfile where
  name : Option (List Char)
  email : List Char
  bio : List Char
  location : List Char
  blog : List Char
  company : List Char
  followers : Nat
  following : Nat
  public_repos : Nat
deriving DecidableEq

/-! ### Sorting

`sorted(repos, key=lambda x: (x.get("stargazers_count", 0),
x.get("forks_count", 0)), reverse=True)` — Python's sort is stable, and
`reverse=True` keeps elements with equal keys in their original order, so the
result is the unique stable descending sort by the key tuple.  Insertion sort
with the total preorder `keyBefore` computes exactly that list. -/

/-- The sort key of a repository. -/
def repoKey (r : RawRepo) : Nat × Nat := (r.stargazers_count, r.forks_count)

/-- Relation `keyBefore a b` holds when `a` may be placed before `b` in the descending
order: `a`'s key is lexicographically greater than `b`'s, or the keys are
equal (in which case stability keeps the original order). -/
def keyBefore (a b : RawRepo) : Prop :=
  (repoKey b).1 < (repoKey a).1 ∨
    ((repoKey a).1 = (repoKey b).1 ∧ (repoKey b).2 ≤ (repoKey a).2)

instance : DecidableRel keyBefore := fun a b => by
  unfold keyBefore; exact inferInstance

instance : IsTotal RawRepo keyBefore :=
  ⟨by intro a b; unfold keyBefore; omega⟩

instance : IsTrans RawRepo keyBefore :=
  ⟨by intro a b c; unfold keyBefore; omega⟩

/-- The sorted repository list the extraction loop iterates over. -/
def sortRepos (rs : List RawRepo) : List RawRepo :=
  List.insertionSort keyBefore rs

/-! ### Extraction (`fetch_github_data`) -/

/-- Comma-space join: `", ".join(xs)`. -/
def joinComma (l : List (List Char)) : List Char :=
  (l.intersperse (", ".data)).flatten

/-- Decimal rendering of a natural number. -/
def natStr (n : Nat) : List Char := (toString n).data

/-- The composed description of a repository:
`f"{repo.get("description", "A project")}. Technologies: {", ".join(languages)}. `
`Made {commit_count} commits. Stars: {repo["stargazers_count"]}, Forks: {repo.get("forks_count", 0)}"`.
Note that `dict.get` falls back to `"A project"` only when the key is absent. -/
def descriptionOf (repo : RawRepo) : List Char :=
  (repo.description.getD ("A project".data)) ++ ". Technologies: ".data
    ++ joinComma repo.languages ++ ". Made ".data ++ natStr repo.commit_count
    ++ " commits. Stars: ".data ++ natStr repo.stargazers_count
    ++ ", Forks: ".data ++ natStr repo.forks_count

/-- An entry of the `projects` list built by `fetch_github_data`. -/
structure ProjectFact where
  name : List Char
  description : List Char
  languages : List (List Char)
  stars : Nat
  commits : Nat
  url : List Char
deriving DecidableEq

/-- An entry of the `experience` list built by `fetch_github_data`. -/
structure ExperienceFact where
  company : List Char
  position : List Char
  date : List Char
  description : List Char
deriving DecidableEq

/-- An entry of the `education` list built by `fetch_github_data`. -/
structure EducationFact where
  school : List Char
  degree : List Char
  date : List Char
  gpa : List Char
deriving DecidableEq

/-- Condition `repo["stargazers_count"] > 0 or commit_count > 10`: the condition under
which a repository is added to `projects` (if fewer than 3 are kept so far)
and to `experience`. -/
def Significant (repo : RawRepo) : Prop :=
  0 < repo.stargazers_count ∨ 10 < repo.commit_count

instance : DecidablePred Significant := fun r => by
  unfold Significant; exact inferInstance

/-- The `project_data` dict built for a qualifying repository. -/
def projectOf (repo : RawRepo) : ProjectFact :=
  { name := repo.name
    description := descriptionOf repo
    languages := repo.languages
    stars := repo.stargazers_count
    commits := repo.commit_count
    url := repo.html_url }

/-- Python `repo["name"].replace('_', ' ').replace('-', ' ')`. -/
def companyOf (repo : RawRepo) : List Char :=
  pyReplace ['-'] [' '] (pyReplace ['_'] [' '] repo.name)

/-- Python `f"{repo["created_at"][:7]} - {repo["updated_at"][:7]}"`. -/
def dateRangeOf (repo : RawRepo) : List Char :=
  List.take 7 repo.created_at ++ " - ".data ++ List.take 7 repo.updated_at

/-- The `exp_data` dict built for a qualifying repository. -/
def experienceOf (repo : RawRepo) : ExperienceFact :=
  { company := companyOf repo
    position := "Lead Developer".data
    date := dateRangeOf repo
    description := descriptionOf repo }

/-- The running state of the repository loop: the `projects` and `experience`
accumulators and the `all_languages` set (kept as the concatenation of the
accumulated language lists; the final `skills` value deduplicates it). -/
structure ExtractState where
  projects : List ProjectFact
  experience : List ExperienceFact
  all_languages : List (List Char)
deriving DecidableEq

/-- One iteration of the repository loop of `fetch_github_data`: forked
repositories are skipped entirely; otherwise the languages are accumulated,
the repository is appended to `projects` when fewer than 3 are kept so far and
it is significant, and appended to `experience` whenever it is significant. -/
def stepRepo (st : ExtractState) (repo : RawRepo) : ExtractState :=
  if repo.fork then st
  else
    { all_languages := st.all_languages ++ repo.languages
      projects :=
        if st.projects.length < 3 ∧ Significant repo then
          st.projects ++ [projectOf repo]
        else st.projects
      experience :=
        if Significant repo then st.experience ++ [experienceOf repo]
        else st.experience }

/-- Ascending lexicographic comparison of strings by code point (Python's
`<=` on `str`), used to model `sorted(list(all_languages))`. -/
def strLeB : List Char → List Char → Bool
  | [], _ => true
  | _ :: _, [] => false
  | a :: as, b :: bs => if a < b then true else if a = b then strLeB as bs else false

/-- Python `sorted(list(all_languages))`: the accumulated language names,
deduplicated (Python builds a set) and sorted alphabetically. -/
def skillsOf (langs : List (List Char)) : List (List Char) :=
  List.insertionSort (fun a b => strLeB a b = true) langs.dedup

/-- Python `github_url.split('/')[-1]`. -/
def usernameOf (github_url : List Char) : List Char :=
  (github_url.splitOn '/').getLastD []

/-- The single education entry emitted when the profile bio is non-empty:
fixed placeholder school and degree values, date `"Present"`, empty GPA. -/
def computerScienceEducation : EducationFact :=
  { school := "Computer Science Student".data
    degree := "Bachelor of Science in Computer Science".data
    date := "Present".data
    gpa := [] }

/-- The `final_data` dict returned by `fetch_github_data`. -/
structure ResumeFacts where
  name : List Char
  email : List Char
  phone : List Char
  location : List Char
  bio : List Char
  skills : List (List Char)
  projects : List ProjectFact
  experience : List ExperienceFact
  education : List EducationFact
  profile_url : List Char
  blog : List Char
  company : List Char
  followers : Nat
  following : Nat
  public_repos : Nat
deriving DecidableEq

/-- The pure core of `fetch_github_data`: given the GitHub URL, the user
record and the repository records (with their language/commit responses), it
sorts the repositories, runs the accumulation loop, infers education from the
bio, and assembles the result. -/
def fetch_github_data (github_url : List Char) (user : RawProfile)
    (repos : List RawRepo) : ResumeFacts :=
  let username := usernameOf github_url
  let st := (sortRepos repos).foldl stepRepo ⟨[], [], []⟩
  let education := if user.bio ≠ [] then [computerScienceEducation] else []
  { name := user.name.getD username
    email := user.email
    phone := []
    location := user.location
    bio := user.bio
    skills := skillsOf st.all_languages
    projects := st.projects
    experience := st.experience
    education := education
    profile_url := github_url
    blog := user.blog
    company := user.company
    followers := user.followers
    following := user.following
    public_repos := user.public_repos }

/-! ### Section formatting (`generate_latex_resume`)

Each section builder mirrors the corresponding f-string of
`generate_latex_resume`; braces of the LaTeX markup are written `\x7b`/`\x7d`
in the literals below. -/

/-- Python `'\n'.join(xs)`. -/
def joinNl (l : List (List Char)) : List Char :=
  (l.intersperse ("\n".data)).flatten

/-- The fixed list of names treated as programming languages when
partitioning the skills. -/
def knownLanguages : List (List Char) :=
  ["Python".data, "JavaScript".data, "TypeScript".data, "C++".data,
   "HTML".data, "CSS".data, "Jupyter Notebook".data]

/-- The `skills_section` string. -/
def skillsSection (d : ResumeFacts) : List Char :=
  let programming_languages := d.skills.filter (fun l => knownLanguages.contains l)
  let technologies := d.skills.filter (fun l => !(programming_languages.contains l))
  "\\begin\x7bitemize\x7d[leftmargin=0.15in, label=\x7b\x7d]\n    \\small\x7b\\item\x7b\n    \\textbf\x7bProgramming Languages\x7d: ".data
    ++ sanitize (joinComma programming_languages)
    ++ " \\\\\n    \\textbf\x7bTechnologies\x7d: ".data
    ++ sanitize (joinComma technologies)
    ++ " \\\\\n    \x7d\x7d\n\\end\x7bitemize\x7d".data

/-- The item string built for one experience entry (the `location` argument
is `github_data["location"]`). -/
def experienceItem (location : List Char) (exp : ExperienceFact) : List Char :=
  "\\resumeSubheading\n            \x7b".data ++ sanitize exp.company
    ++ "\x7d\x7b".data ++ sanitize location
    ++ "\x7d\n            \x7b".data ++ sanitize exp.position
    ++ "\x7d\x7b".data ++ sanitize exp.date
    ++ "\x7d\n            \\resumeItemListStart\n            \\resumeItem\x7b".data
    ++ sanitize exp.description
    ++ "\x7d\n            \\resumeItemListEnd".data

/-- List `experience_items`: the loop `for exp in github_data["experience"][:3]`
renders at most the first 3 experience entries. -/
def experienceItems (d : ResumeFacts) : List (List Char) :=
  (d.experience.take 3).map (experienceItem d.location)

/-- The `experience_section` string. -/
def experienceSection (d : ResumeFacts) : List Char :=
  "\\resumeSubHeadingListStart\n".data ++ joinNl (experienceItems d)
    ++ "\n\\resumeSubHeadingListEnd".data

/-- The item string built for one project entry. -/
def projectItem (proj : ProjectFact) : List Char :=
  "\\resumeSubheading\n                \x7b".data ++ sanitize proj.name
    ++ "\x7d\x7b".data ++ sanitize ("GitHub".data)
    ++ "\x7d\n                \x7bProject\x7d\x7b".data
    ++ sanitize (joinComma proj.languages)
    ++ "\x7d\n                \\resumeItemListStart\n                \\resumeItem\x7b".data
    ++ sanitize proj.description
    ++ "\x7d\n                \\resumeItemListEnd".data

/-- List `project_items`: the loop `for proj in github_data["projects"][:2]`
renders at most the first 2 projects. -/
def projectItems (d : ResumeFacts) : List (List Char) :=
  (d.projects.take 2).map projectItem

/-- The `projects_section` string. -/
def projectsSection (d : ResumeFacts) : List Char :=
  "\\resumeSubHeadingListStart\n".data ++ joinNl (projectItems d)
    ++ "\n\\resumeSubHeadingListEnd".data

/-- The item string built for one education entry. -/
def educationItem (location : List Char) (edu : EducationFact) : List Char :=
  "\\resumeSubheading\x7b".data ++ sanitize edu.school
    ++ "\x7d\x7b".data ++ sanitize location
    ++ "\x7d\x7b".data ++ sanitize edu.degree
    ++ "\x7d\x7b".data ++ sanitize edu.date ++ "\x7d".data

/-- The `education_section` string. -/
def educationSection (d : ResumeFacts) : List Char :=
  "\\resumeSubHeadingListStart\n".data
    ++ joinNl (d.education.map (educationItem d.location))
    ++ "\n\\resumeSubHeadingListEnd".data

/-- The `contact_section` string: always the email and both `\href` links,
in that order, regardless of whether the URLs are empty. -/
def contactSection (d : ResumeFacts) : List Char :=
  "\\begin\x7bcenter\x7d\n\\small ".data ++ sanitize d.email
    ++ " $|$ \\href\x7b".data ++ sanitize d.profile_url
    ++ "\x7d\x7b".data ++ sanitize ("GitHub".data)
    ++ "\x7d $|$ \\href\x7b".data ++ sanitize d.blog
    ++ "\x7d\x7b".data ++ sanitize ("Portfolio".data)
    ++ "\x7d\n\\end\x7bcenter\x7d".data

/-! ### Template substitution

The keys of the `replacements` dict are the literal example blocks the
template ships with; the loop
`for key, value in replacements.items(): latex_content = latex_content.replace(key, value)`
applies the replacements one after another to the accumulating output. -/

/-- Literal key of the `replacements` dict of `generate_latex_resume`: the example name heading shipped in the template. -/
def nameBlock : List Char :=
  "\\textbf\x7b\\Huge \\scshape John Doe\x7d".data

/-- Literal key of the `replacements` dict of `generate_latex_resume`: the example skills itemize block shipped in the template. -/
def skillsBlock : List Char :=
  "\\begin\x7bitemize\x7d[leftmargin=0.15in, label=\x7b\x7d]\n    \\small\x7b\\item\x7b\n    \\textbf\x7bProgramming Languages\x7d: JavaScript, TypeScript, HTML, Python, Jupyter Notebook, C++ \\\\\n    \\textbf\x7bTechnologies\x7d: Git, GitHub \\\\\n    \x7d\x7d\n\\end\x7bitemize\x7d".data

/-- Literal key of the `replacements` dict of `generate_latex_resume`: the example experience block shipped in the template. -/
def experienceBlock : List Char :=
  "\\resumeSubHeadingListStart\n\\resumeSubheading\n            \x7bExample Corp\x7d\x7bLocation\x7d\n            \x7bSoftware Engineer\x7d\x7b2020-Present\x7d\n            \\resumeItemListStart\n            \\resumeItem\x7bFull-stack development\x7d\n            \\resumeItemListEnd\n\\resumeSubHeadingListEnd".data

/-- Literal key of the `replacements` dict of `generate_latex_resume`: the example projects block shipped in the template. -/
def projectsBlock : List Char :=
  "\\resumeSubHeadingListStart\n\\resumeSubheading\n                \x7bA-H-Website\x7d\x7bGitHub\x7d\n                \x7bProject\x7d\x7bHTML\x7d\n                \\resumeItemListStart\n                \\resumeItem\x7bSo, I have created this website using HTML, CSS and JS and this is the first website in which I use JS and learn so much about JS different functions . In this website, I give every latest news on every major fields .It is like a latest news center in which I am updating information everyday so user get latest news\x7d\n                \\resumeItemListEnd\n\\resumeSubheading\n                \x7bAdvent-Of-Code-2024-Competition\x7d\x7bGitHub\x7d\n                \x7bProject\x7d\x7bJavaScript\x7d\n                \\resumeItemListStart\n                \\resumeItem\x7bWelcome to my Advent of Code 2024 repository! \u00f0\u0178\u017d\u2030 Every day, I\x27ll be solving a new puzzle and posting my solution here. This event is a fun and challenging way to improve problem-solving skills and learn new concepts. I\x27m documenting my journey to share with anyone who might be working through the same puzzles or wants to follow along!\u00f0\u0178\u0152\u0178\x7d\n                \\resumeItemListEnd\n\\resumeSubHeadingListEnd".data

/-- Literal key of the `replacements` dict of `generate_latex_resume`: the example education block shipped in the template. -/
def educationBlock : List Char :=
  "\\resumeSubHeadingListStart\n\\resumeSubheading\x7bUniversity Name\x7d\x7bCity, Country\x7d\x7bDegree\x7d\x7b2018-2022\x7d\n\\resumeSubHeadingListEnd".data

/-- Literal key of the `replacements` dict of `generate_latex_resume`: the example contact block shipped in the template. -/
def contactBlock : List Char :=
  "\\begin\x7bcenter\x7d\n\\small john@example.com $|$ \\href\x7bhttps://github.com/HassanMehmood413\x7d\x7bGitHub\x7d $|$ \\href\x7bhttps://www.linkedin.com/in/hassan-mehmood-01a3a9247/\x7d\x7bLinkedIn\x7d\n\\end\x7bcenter\x7d".data

/-- The value substituted for `nameBlock`. -/
def nameReplacement (d : ResumeFacts) : List Char :=
  "\\textbf\x7b\\Huge \\scshape ".data ++ sanitize d.name ++ "\x7d".data

/-- The `replacements` dict of `generate_latex_resume`, in insertion order. -/
def replacementsTable (d : ResumeFacts) : List (List Char × List Char) :=
  [ (nameBlock, nameReplacement d),
    (skillsBlock, skillsSection d),
    (experienceBlock, experienceSection d),
    (projectsBlock, projectsSection d),
    (educationBlock, educationSection d),
    (contactBlock, contactSection d) ]

/-- The substitution loop: each registered replacement is applied once, in
order, to the result of the previous substitutions. -/
def applyReplacements (template : List Char) (reps : List (List Char × List Char)) : List Char :=
  reps.foldl (fun acc kv => pyReplace kv.1 kv.2 acc) template

/-- The pure core of `generate_latex_resume`: build the section fragments and
run the substitution loop over the template text. -/
def generate_latex_resume (template : List Char) (d : ResumeFacts) : List Char :=
  applyReplacements template (replacementsTable d)

/-! ### Concrete sample data

Inputs used by the witness and counterexample theorems below. -/

/-- A profile with a non-empty bio. -/
def sampleProfile : RawProfile :=
  { name := some ("Sample User".data)
    email := "user@example.com".data
    bio := "CS student".data
    location := "Lahore".data
    blog := "https://blog.example".data
    company := []
    followers := 1
    following := 2
    public_repos := 3 }

/-- A GitHub profile URL. -/
def sampleUrl : List Char := "https://github.com/sampleuser".data

/-- A minimal significant (1 star), non-forked repository named `nm`. -/
def starredRepo (nm : List Char) : RawRepo :=
  { name := nm
    description := none
    fork := false
    stargazers_count := 1
    forks_count := 0
    created_at := "2020-01-15".data
    updated_at := "2020-02-20".data
    html_url := nm
    languages := []
    commit_count := 0 }

/-- Four significant non-forked repositories. -/
def fourRepos : List RawRepo :=
  [starredRepo ("r1".data), starredRepo ("r2".data),
   starredRepo ("r3".data), starredRepo ("r4".data)]

/-- A significant non-forked repository whose `description` key is present
but holds the empty string. -/
def emptyDescRepo : RawRepo :=
  { name := "proj".data
    description := some []
    fork := false
    stargazers_count := 10
    forks_count := 0
    created_at := "2020-01-01".data
    updated_at := "2021-06-01".data
    html_url := "https://github.com/x/proj".data
    languages := ["Python".data]
    commit_count := 15 }

/-- Repository A of the sorting example: 5 stars, 1 fork. -/
def repoA : RawRepo :=
  { starredRepo ("A".data) with stargazers_count := 5, forks_count := 1 }

/-- Repository B of the sorting example: 5 stars, 3 forks. -/
def repoB : RawRepo :=
  { starredRepo ("B".data) with stargazers_count := 5, forks_count := 3 }

/-- Repository C of the sorting example: 2 stars, 9 forks. -/
def repoC : RawRepo :=
  { starredRepo ("C".data) with stargazers_count := 2, forks_count := 9 }

/-- A `ResumeFacts` value whose blog URL is empty. -/
def emptyBlogFacts : ResumeFacts :=
  { name := "N".data
    email := "e@example.com".data
    phone := []
    location := []
    bio := []
    skills := []
    projects := []
    experience := []
    education := []
    profile_url := "https://github.com/x".data
    blog := []
    company := []
    followers := 0
    following := 0
    public_repos := 0 }

/-! ## Lemmas about the text transforms -/

/-- A single-character `replace` is a per-character substitution. -/
theorem pyReplaceF_singleton (c : Char) (rep : List Char) :
    ∀ (fuel : Nat) (s : List Char), s.length ≤ fuel →
      pyReplaceF [c] rep fuel s = s.flatMap (fun x => if x = c then rep else [x]) := by
  intro fuel
  induction fuel with
  | zero =>
    intro s h
    have hs : s = [] := List.eq_nil_of_length_eq_zero (Nat.le_zero.mp h)
    subst hs
    simp [pyReplaceF]
  | succ n ih =>
    intro s h
    cases s with
    | nil => simp [pyReplaceF]
    | cons x rest =>
      have hr : rest.length ≤ n := by
        simpa [List.length_cons, Nat.succ_le_succ_iff] using h
      by_cases hx : x = c
      · subst hx
        have hpre : ([x].isPrefixOf (x :: rest)) = true := by
          simp [List.isPrefixOf_cons₂, List.isPrefixOf]
        simp [pyReplaceF, hpre, ih rest hr]
      · have hpre : ([c].isPrefixOf (x :: rest)) = false := by
          simp [List.isPrefixOf_cons₂, List.isPrefixOf]
          exact fun hcx => absurd hcx.symm hx
        simp [pyReplaceF, hpre, hx, ih rest hr]

/-- Function `pyReplace` with a single-character pattern as a `flatMap`. -/
theorem pyReplace_singleton (c : Char) (rep s : List Char) :
    pyReplace [c] rep s = s.flatMap (fun x => if x = c then rep else [x]) :=
  pyReplaceF_singleton c rep s.length s (Nat.le_refl _)

/-- The single-character replacement loop distributes over concatenation. -/
theorem applyCharReplacements_append (tbl : List (Char × List Char)) :
    ∀ a b : List Char,
      applyCharReplacements tbl (a ++ b)
        = applyCharReplacements tbl a ++ applyCharReplacements tbl b := by
  induction tbl with
  | nil => intro a b; simp [applyCharReplacements]
  | cons kv rest ih =>
    intro a b
    simp only [applyCharReplacements, List.foldl_cons]
    rw [show pyReplace [kv.1] kv.2 (a ++ b)
          = pyReplace [kv.1] kv.2 a ++ pyReplace [kv.1] kv.2 b by
        rw [pyReplace_singleton, pyReplace_singleton, pyReplace_singleton,
          List.flatMap_append]]
    exact ih _ _

/-- Every character of a single-character replacement's output comes from the
input or from the replacement string. -/
theorem mem_pyReplace_singleton {c : Char} {rep s : List Char} {x : Char}
    (h : x ∈ pyReplace [c] rep s) : x ∈ s ∨ x ∈ rep := by
  rw [pyReplace_singleton] at h
  rcases List.mem_flatMap.mp h with ⟨y, hy, hx⟩
  by_cases hyc : y = c
  · subst hyc
    rw [if_pos rfl] at hx
    exact Or.inr hx
  · rw [if_neg hyc] at hx
    rcases List.mem_singleton.mp hx with rfl
    exact Or.inl hy

/-- Every character of the replacement loop's output comes from the input or
from one of the replacement strings. -/
theorem mem_applyCharReplacements {tbl : List (Char × List Char)} :
    ∀ {s : List Char} {x : Char}, x ∈ applyCharReplacements tbl s →
      x ∈ s ∨ ∃ kv ∈ tbl, x ∈ kv.2 := by
  induction tbl with
  | nil => intro s x h; exact Or.inl h
  | cons kv rest ih =>
    intro s x h
    simp only [applyCharReplacements, List.foldl_cons] at h
    rcases ih h with h1 | ⟨kv', hkv', hx⟩
    · rcases mem_pyReplace_singleton h1 with h2 | h2
      · exact Or.inl h2
      · exact Or.inr ⟨kv, List.mem_cons_self kv rest, h2⟩
    · exact Or.inr ⟨kv', List.mem_cons_of_mem kv hkv', hx⟩

/-- If a pattern does not occur in the text, `pyReplaceF` is the identity. -/
theorem pyReplaceF_of_not_occursIn {pat rep : List Char} :
    ∀ (fuel : Nat) (s : List Char), occursIn pat s = false →
      pyReplaceF pat rep fuel s = s := by
  intro fuel
  induction fuel with
  | zero => intro s h; cases s <;> simp [pyReplaceF]
  | succ n ih =>
    intro s h
    cases s with
    | nil => simp [pyReplaceF]
    | cons x rest =>
      rw [occursIn, Bool.or_eq_false_iff] at h
      simp [pyReplaceF, h.1, ih rest h.2]

/-- If a pattern does not occur in the text, `pyReplace` is the identity. -/
theorem pyReplace_of_not_occursIn {pat rep s : List Char}
    (h : occursIn pat s = false) : pyReplace pat rep s = s :=
  pyReplaceF_of_not_occursIn s.length s h

/-- The head of `dropWhile p` never satisfies `p`. -/
theorem head?_dropWhile_false {p : Char → Bool} :
    ∀ {l : List Char} {c : Char}, (l.dropWhile p).head? = some c → p c = false := by
  intro l
  induction l with
  | nil => intro c h; simp [List.dropWhile] at h
  | cons x xs ih =>
    intro c h
    rw [List.dropWhile_cons] at h
    by_cases hx : p x
    · exact ih (by simpa [hx] using h)
    · rw [if_neg (by simpa using hx)] at h
      simp only [List.head?_cons, Option.some.injEq] at h
      subst h
      simpa using hx

/-- A non-empty `dropWhile` keeps the last element of the list. -/
theorem getLast?_dropWhile {p : Char → Bool} {l : List Char}
    (h : l.dropWhile p ≠ []) : (l.dropWhile p).getLast? = l.getLast? := by
  obtain ⟨t, ht⟩ := List.dropWhile_suffix (l := l) p
  conv_rhs => rw [← ht]
  rw [List.getLast?_append]
  cases hw : (l.dropWhile p).getLast? with
  | none => exact absurd (List.getLast?_eq_none_iff.mp hw) h
  | some x => rfl

/-- Characters of `pyStrip s` are characters of `s`. -/
theorem mem_pyStrip {c : Char} {s : List Char} (h : c ∈ pyStrip s) : c ∈ s := by
  unfold pyStrip at h
  rw [List.mem_reverse] at h
  have h2 : c ∈ (s.dropWhile pyIsSpace).reverse :=
    (List.dropWhile_sublist _).mem h
  rw [List.mem_reverse] at h2
  exact (List.dropWhile_sublist _).mem h2

/-- The first character of a stripped string is not whitespace. -/
theorem pyStrip_head? {s : List Char} {c : Char}
    (h : (pyStrip s).head? = some c) : pyIsSpace c = false := by
  unfold pyStrip at h
  rw [List.head?_reverse] at h
  have hne : (s.dropWhile pyIsSpace).reverse.dropWhile pyIsSpace ≠ [] := by
    intro hnil
    rw [hnil] at h
    simp at h
  rw [getLast?_dropWhile hne, List.getLast?_reverse] at h
  exact head?_dropWhile_false h

/-- The last character of a stripped string is not whitespace. -/
theorem pyStrip_getLast? {s : List Char} {c : Char}
    (h : (pyStrip s).getLast? = some c) : pyIsSpace c = false := by
  unfold pyStrip at h
  rw [List.getLast?_reverse] at h
  exact head?_dropWhile_false h

/-- A non-empty substring none of whose characters satisfies `p` survives
`dropWhile p`. -/
theorem infix_dropWhile {p : Char → Bool} {m : List Char} (hm : m ≠ [])
    (hmp : ∀ c ∈ m, p c = false) :
    ∀ {l : List Char}, m <:+: l → m <:+: l.dropWhile p := by
  intro l
  induction l with
  | nil =>
    intro h
    rcases h with ⟨s, t, hst⟩
    rcases List.append_eq_nil.mp (List.append_eq_nil.mp hst).1 with ⟨-, hm'⟩
    exact absurd hm' hm
  | cons x xs ih =>
    intro h
    rw [List.dropWhile_cons]
    by_cases hx : p x
    · rw [if_pos hx]
      apply ih
      rcases h with ⟨s, t, hst⟩
      cases s with
      | nil =>
        cases m with
        | nil => exact absurd rfl hm
        | cons y ys =>
          rw [List.nil_append, List.cons_append, List.cons.injEq] at hst
          have hy : p y = false := hmp y (List.mem_cons_self y ys)
          rw [hst.1] at hy
          rw [hy] at hx
          exact absurd hx (by simp)
      | cons a s' =>
        rw [List.cons_append, List.cons_append, List.cons.injEq] at hst
        exact ⟨s', t, hst.2⟩
    · rw [if_neg hx]
      exact h

/-- A non-empty whitespace-free substring survives `pyStrip`. -/
theorem infix_pyStrip {m s : List Char} (hm : m ≠ [])
    (hmp : ∀ c ∈ m, pyIsSpace c = false) (h : m <:+: s) :
    m <:+: pyStrip s := by
  unfold pyStrip
  have h1 : m <:+: s.dropWhile pyIsSpace := infix_dropWhile hm hmp h
  have h2 : m.reverse <:+: (s.dropWhile pyIsSpace).reverse :=
    List.reverse_infix.mpr h1
  have h3 : m.reverse <:+: (s.dropWhile pyIsSpace).reverse.dropWhile pyIsSpace :=
    infix_dropWhile (by simpa using hm)
      (fun c hc => hmp c (List.mem_reverse.mp hc)) h2
  have h4 := List.reverse_infix.mpr h3
  simpa using h4

/-! ## Lemmas about the extraction loop -/

/-- Any project in the state after one loop step was already there or comes
from the processed repository, which is then non-forked and significant. -/
theorem stepRepo_projects_spec (st : ExtractState) (r : RawRepo) :
    ∀ p ∈ (stepRepo st r).projects,
      p ∈ st.projects ∨ (r.fork = false ∧ Significant r ∧ p = projectOf r) := by
  intro p hp
  by_cases hf : r.fork
  · rw [stepRepo, if_pos hf] at hp
    exact Or.inl hp
  · rw [stepRepo, if_neg hf] at hp
    simp only at hp
    by_cases hc : st.projects.length < 3 ∧ Significant r
    · rw [if_pos hc] at hp
      rcases List.mem_append.mp hp with h1 | h2
      · exact Or.inl h1
      · rcases List.mem_singleton.mp h2 with rfl
        exact Or.inr ⟨by simpa using hf, hc.2, rfl⟩
    · rw [if_neg hc] at hp
      exact Or.inl hp

/-- Any experience entry in the state after one loop step was already there
or comes from the processed repository, then non-forked and significant. -/
theorem stepRepo_experience_spec (st : ExtractState) (r : RawRepo) :
    ∀ e ∈ (stepRepo st r).experience,
      e ∈ st.experience ∨ (r.fork = false ∧ Significant r ∧ e = experienceOf r) := by
  intro e he
  by_cases hf : r.fork
  · rw [stepRepo, if_pos hf] at he
    exact Or.inl he
  · rw [stepRepo, if_neg hf] at he
    simp only at he
    by_cases hc : Significant r
    · rw [if_pos hc] at he
      rcases List.mem_append.mp he with h1 | h2
      · exact Or.inl h1
      · rcases List.mem_singleton.mp h2 with rfl
        exact Or.inr ⟨by simpa using hf, hc, rfl⟩
    · rw [if_neg hc] at he
      exact Or.inl he

/-- Any language in the state after one loop step was already there or is a
language of the processed repository, which is then non-forked. -/
theorem stepRepo_languages_spec (st : ExtractState) (r : RawRepo) :
    ∀ x ∈ (stepRepo st r).all_languages,
      x ∈ st.all_languages ∨ (r.fork = false ∧ x ∈ r.languages) := by
  intro x hx
  by_cases hf : r.fork
  · rw [stepRepo, if_pos hf] at hx
    exact Or.inl hx
  · rw [stepRepo, if_neg hf] at hx
    simp only at hx
    rcases List.mem_append.mp hx with h1 | h2
    · exact Or.inl h1
    · exact Or.inr ⟨by simpa using hf, h2⟩

/-- Provenance of the `projects` accumulator over the whole loop. -/
theorem foldl_projects_spec :
    ∀ (repos : List RawRepo) (st : ExtractState),
      ∀ p ∈ (repos.foldl stepRepo st).projects,
        p ∈ st.projects ∨
          ∃ r ∈ repos, r.fork = false ∧ Significant r ∧ p = projectOf r := by
  intro repos
  induction repos with
  | nil => intro st p hp; exact Or.inl hp
  | cons r rest ih =>
    intro st p hp
    rw [List.foldl_cons] at hp
    rcases ih (stepRepo st r) p hp with h | ⟨r', hr', hspec⟩
    · rcases stepRepo_projects_spec st r p h with h1 | ⟨hf, hsig, rfl⟩
      · exact Or.inl h1
      · exact Or.inr ⟨r, List.mem_cons_self r rest, hf, hsig, rfl⟩
    · exact Or.inr ⟨r', List.mem_cons_of_mem r hr', hspec⟩

/-- Provenance of the `experience` accumulator over the whole loop. -/
theorem foldl_experience_spec :
    ∀ (repos : List RawRepo) (st : ExtractState),
      ∀ e ∈ (repos.foldl stepRepo st).experience,
        e ∈ st.experience ∨
          ∃ r ∈ repos, r.fork = false ∧ Significant r ∧ e = experienceOf r := by
  intro repos
  induction repos with
  | nil => intro st e he; exact Or.inl he
  | cons r rest ih =>
    intro st e he
    rw [List.foldl_cons] at he
    rcases ih (stepRepo st r) e he with h | ⟨r', hr', hspec⟩
    · rcases stepRepo_experience_spec st r e h with h1 | ⟨hf, hsig, rfl⟩
      · exact Or.inl h1
      · exact Or.inr ⟨r, List.mem_cons_self r rest, hf, hsig, rfl⟩
    · exact Or.inr ⟨r', List.mem_cons_of_mem r hr', hspec⟩

/-- Provenance of the `all_languages` accumulator over the whole loop. -/
theorem foldl_languages_spec :
    ∀ (repos : List RawRepo) (st : ExtractState),
      ∀ x ∈ (repos.foldl stepRepo st).all_languages,
        x ∈ st.all_languages ∨ ∃ r ∈ repos, r.fork = false ∧ x ∈ r.languages := by
  intro repos
  induction repos with
  | nil => intro st x hx; exact Or.inl hx
  | cons r rest ih =>
    intro st x hx
    rw [List.foldl_cons] at hx
    rcases ih (stepRepo st r) x hx with h | ⟨r', hr', hspec⟩
    · rcases stepRepo_languages_spec st r x h with h1 | ⟨hf, hl⟩
      · exact Or.inl h1
      · exact Or.inr ⟨r, List.mem_cons_self r rest, hf, hl⟩
    · exact Or.inr ⟨r', List.mem_cons_of_mem r hr', hspec⟩

/-- One loop step never pushes the `projects` accumulator past 3 entries. -/
theorem stepRepo_projects_length (st : ExtractState) (r : RawRepo)
    (h : st.projects.length ≤ 3) : (stepRepo st r).projects.length ≤ 3 := by
  by_cases hf : r.fork
  · rw [stepRepo, if_pos hf]
    exact h
  · rw [stepRepo, if_neg hf]
    simp only
    by_cases hc : st.projects.length < 3 ∧ Significant r
    · rw [if_pos hc]
      rw [List.length_append, List.length_singleton]
      omega
    · rw [if_neg hc]
      exact h

/-- The `projects` accumulator never exceeds 3 entries. -/
theorem foldl_projects_length :
    ∀ (repos : List RawRepo) (st : ExtractState), st.projects.length ≤ 3 →
      (repos.foldl stepRepo st).projects.length ≤ 3 := by
  intro repos
  induction repos with
  | nil => intro st h; exact h
  | cons r rest ih =>
    intro st h
    rw [List.foldl_cons]
    exact ih (stepRepo st r) (stepRepo_projects_length st r h)

/-! ## Claim theorems -/

/-- C2: the claim says `sanitize` escapes the backslash first so that later
escapes are never re-escaped, with `sanitize("A & B_C") = "A \& B\_C"`.  The
code's replacement dict instead lists the backslash tenth, after `&` and `_`,
so the backslashes introduced by the earlier `\&` and `\_` substitutions are
re-escaped to `\textbackslash{}` — this theorem evaluates the code at the
claim's own example and shows the mangled output, in which `&` and `_` end up
unescaped after a `\textbackslash{}`. -/
theorem C2_sanitize_backslash_order :
    sanitize ("A & B_C".data)
        = "A \\textbackslash\x7b\x7d& B\\textbackslash\x7b\x7d_C".data ∧
    sanitize ("A & B_C".data) ≠ "A \\& B\\_C".data := by
  exact ⟨by decide, by decide⟩

/-- C4: the extraction sorts repositories with
`sorted(..., key=(stars, forks), reverse=True)`: the result is pairwise
descending in the lexicographic key order, a permutation of the input, and
stable (repositories with any fixed key tuple keep their original relative
order); on A(5,1), B(5,3), C(2,9) the resulting order is B, A, C. -/
theorem C4_sort_descending_stable :
    (∀ rs : List RawRepo, List.Sorted keyBefore (sortRepos rs)) ∧
    (∀ rs : List RawRepo, (sortRepos rs).Perm rs) ∧
    (∀ (rs : List RawRepo) (k : Nat × Nat),
        (sortRepos rs).filter (fun r => decide (repoKey r = k))
          = rs.filter (fun r => decide (repoKey r = k))) ∧
    sortRepos [repoA, repoB, repoC] = [repoB, repoA, repoC] := by
  refine ⟨fun rs => List.sorted_insertionSort keyBefore rs,
          fun rs => List.perm_insertionSort keyBefore rs, ?_, by decide⟩
  intro rs k
  have hc : List.Pairwise keyBefore
      (rs.filter (fun r => decide (repoKey r = k))) := by
    apply List.pairwise_of_forall_mem_list
    intro a ha b hb
    have hak : repoKey a = k := of_decide_eq_true (List.mem_filter.mp ha).2
    have hbk : repoKey b = k := of_decide_eq_true (List.mem_filter.mp hb).2
    unfold keyBefore
    rw [hak, hbk]
    omega
  have hsub : (rs.filter (fun r => decide (repoKey r = k))).Sublist (sortRepos rs) :=
    List.sublist_insertionSort hc (List.filter_sublist rs)
  have heq : (rs.filter (fun r => decide (repoKey r = k))).filter
      (fun r => decide (repoKey r = k)) = rs.filter (fun r => decide (repoKey r = k)) := by
    rw [List.filter_eq_self]
    intro a ha
    exact (List.mem_filter.mp ha).2
  have hsub2 := List.Sublist.filter (fun r => decide (repoKey r = k)) hsub
  rw [heq] at hsub2
  have hperm : ((sortRepos rs).filter (fun r => decide (repoKey r = k))).Perm
      (rs.filter (fun r => decide (repoKey r = k))) :=
    (List.perm_insertionSort keyBefore rs).filter _
  exact (hsub2.eq_of_length hperm.length_eq.symm).symm

/-- C6: the education list of the extracted facts is non-empty exactly when
the profile bio is non-empty, and then it is the single placeholder entry
(`"Computer Science Student"` / `"Bachelor of Science in Computer Science"`)
with date `"Present"`. -/
theorem C6_education_iff_bio :
    (∀ (g : List Char) (u : RawProfile) (rs : List RawRepo),
        ((fetch_github_data g u rs).education ≠ [] ↔ u.bio ≠ []) ∧
        (u.bio ≠ [] →
          (fetch_github_data g u rs).education = [computerScienceEducation])) ∧
    computerScienceEducation.date = "Present".data := by
  refine ⟨?_, by decide⟩
  intro g u rs
  by_cases hb : u.bio = [] <;> simp [fetch_github_data, hb]

/-- Witness for C6 at a concrete profile with non-empty bio. -/
theorem C6_education_iff_bio_witness :
    (fetch_github_data sampleUrl sampleProfile []).education
      = [computerScienceEducation] :=
  (C6_education_iff_bio.1 sampleUrl sampleProfile []).2 (by decide)

/-- C1 counterexample: with four significant non-forked repositories the
extraction keeps 3 projects (the code's cap is `len(projects) < 3`, not 2)
and 4 experience entries (the extraction loop does not cap `experience` at
all), so the claimed bounds (projects ≤ 2, experience ≤ 3) fail on the
`ResumeFacts` produced by extraction. -/
theorem C1_extraction_caps_counterexample :
    ¬ ((fetch_github_data sampleUrl sampleProfile fourRepos).projects.length ≤ 2 ∧
       (fetch_github_data sampleUrl sampleProfile fourRepos).experience.length ≤ 3) := by
  decide

/-- C1 (amended): the extraction caps `projects` at 3 and does not cap
`experience`; the bounds 2 and 3 hold of the rendered sections instead, whose
item lists take only the first 2 projects and the first 3 experience
entries. -/
theorem C1_extraction_caps :
    (∀ (g : List Char) (u : RawProfile) (rs : List RawRepo),
        (fetch_github_data g u rs).projects.length ≤ 3) ∧
    (∀ d : ResumeFacts, (experienceItems d).length ≤ 3) ∧
    (∀ d : ResumeFacts, (projectItems d).length ≤ 2) := by
  refine ⟨?_, ?_, ?_⟩
  · intro g u rs
    show ((sortRepos rs).foldl stepRepo ⟨[], [], []⟩).projects.length ≤ 3
    exact foldl_projects_length _ _ (by simp)
  · intro d
    unfold experienceItems
    simp [List.length_take]
  · intro d
    unfold projectItems
    simp [List.length_take]

/-- C3 counterexample: the renderer's substitution loop is chained — each
replacement is applied to the output of the previous one, so the result
depends on the order of the registered pairs, contradicting the claim that
every pair is applied against the immutable original template independently
of order. -/
theorem C3_renderer_counterexample :
    applyReplacements ("A".data) [("A".data, "B".data), ("B".data, "C".data)]
        = "C".data ∧
    applyReplacements ("A".data) [("B".data, "C".data), ("A".data, "B".data)]
        = "B".data ∧
    ("C".data : List Char) ≠ "B".data := by
  exact ⟨by decide, by decide, by decide⟩

/-- C3 (amended): the renderer applies each registered replacement exactly
once, in registration order, to the already-substituted output (the loop is a
left fold of single replacements), and a replacement whose literal block does
not occur in the current text leaves it unchanged. -/
theorem C3_renderer_chained :
    (∀ (t : List Char) (r1 r2 : List (List Char × List Char)),
        applyReplacements t (r1 ++ r2)
          = applyReplacements (applyReplacements t r1) r2) ∧
    (∀ (t : List Char) (reps : List (List Char × List Char)) (k v : List Char),
        occursIn k (applyReplacements t reps) = false →
          applyReplacements t (reps ++ [(k, v)]) = applyReplacements t reps) := by
  constructor
  · intro t r1 r2
    unfold applyReplacements
    exact List.foldl_append _ _ _ _
  · intro t reps k v h
    unfold applyReplacements at h ⊢
    rw [List.foldl_append]
    simp only [List.foldl_cons, List.foldl_nil]
    exact pyReplace_of_not_occursIn h

/-- Witness for C3 (amended) at a concrete template and table. -/
theorem C3_renderer_chained_witness :
    applyReplacements ("A".data) [("A".data, "B".data), ("X".data, "Y".data)]
      = applyReplacements ("A".data) [("A".data, "B".data)] :=
  C3_renderer_chained.2 ("A".data) [("A".data, "B".data)] "X".data ("Y".data)
    (by decide)

/-- C5: forked repositories contribute nothing to the extracted facts —
every skill is a language of some non-forked input repository, and every
project and experience entry is derived (by `projectOf` / `experienceOf`)
from some non-forked, significant input repository. -/
theorem C5_no_fork_contributes :
    ∀ (g : List Char) (u : RawProfile) (rs : List RawRepo),
      (∀ s ∈ (fetch_github_data g u rs).skills,
          ∃ r ∈ rs, r.fork = false ∧ s ∈ r.languages) ∧
      (∀ p ∈ (fetch_github_data g u rs).projects,
          ∃ r ∈ rs, r.fork = false ∧ Significant r ∧ p = projectOf r) ∧
      (∀ e ∈ (fetch_github_data g u rs).experience,
          ∃ r ∈ rs, r.fork = false ∧ Significant r ∧ e = experienceOf r) := by
  intro g u rs
  refine ⟨?_, ?_, ?_⟩
  · intro s hs
    have hs1 : s ∈ skillsOf ((sortRepos rs).foldl stepRepo ⟨[], [], []⟩).all_languages := hs
    have hs2 : s ∈ ((sortRepos rs).foldl stepRepo ⟨[], [], []⟩).all_languages := by
      unfold skillsOf at hs1
      exact List.mem_dedup.mp ((List.mem_insertionSort _).mp hs1)
    rcases foldl_languages_spec (sortRepos rs) ⟨[], [], []⟩ s hs2 with h | ⟨r, hr, hf, hl⟩
    · simp at h
    · exact ⟨r, (List.mem_insertionSort _).mp hr, hf, hl⟩
  · intro p hp
    rcases foldl_projects_spec (sortRepos rs) ⟨[], [], []⟩ p hp with h | ⟨r, hr, hf, hsig, hpr⟩
    · simp at h
    · exact ⟨r, (List.mem_insertionSort _).mp hr, hf, hsig, hpr⟩
  · intro e he
    rcases foldl_experience_spec (sortRepos rs) ⟨[], [], []⟩ e he with h | ⟨r, hr, hf, hsig, her⟩
    · simp at h
    · exact ⟨r, (List.mem_insertionSort _).mp hr, hf, hsig, her⟩

/-- Witness for C5 at a concrete single-repository input. -/
theorem C5_no_fork_contributes_witness :
    ∃ r ∈ [starredRepo ("w".data)], r.fork = false ∧ Significant r ∧
      projectOf (starredRepo ("w".data)) = projectOf r :=
  (C5_no_fork_contributes sampleUrl sampleProfile [starredRepo ("w".data)]).2.1
    (projectOf (starredRepo ("w".data))) (by decide)

/-- C7 counterexample: a present-but-empty `description` does NOT trigger the
`"A project"` fallback — `dict.get("description", "A project")` falls back
only when the key is absent — so the composed description of a repository
with an empty description starts with `". Technologies:"` instead of the
claimed `"A project. Technologies:"`. -/
theorem C7_description_counterexample :
    (fetch_github_data sampleUrl sampleProfile [emptyDescRepo]).projects.map
        (fun p => p.description)
      = [". Technologies: Python. Made 15 commits. Stars: 10, Forks: 0".data] ∧
    (". Technologies: Python. Made 15 commits. Stars: 10, Forks: 0".data : List Char)
      ≠ "A project. Technologies: Python. Made 15 commits. Stars: 10, Forks: 0".data := by
  exact ⟨by decide, by decide⟩

/-- C7 (amended): every project and experience entry selected by the
extraction comes from a non-forked significant repository and carries the
composed description
`"{description}. Technologies: {", ".join(languages)}. Made {commits} commits. Stars: {stars}, Forks: {forks}"`,
where the `"A project"` fallback is used exactly when the `description` key
is absent (not when it is present but empty). -/
theorem C7_description_composition :
    ∀ (g : List Char) (u : RawProfile) (rs : List RawRepo),
      (∀ p ∈ (fetch_github_data g u rs).projects,
          ∃ r ∈ rs, r.fork = false ∧ Significant r ∧
            p.description
              = (r.description.getD ("A project".data)) ++ ". Technologies: ".data
                ++ joinComma r.languages ++ ". Made ".data ++ natStr r.commit_count
                ++ " commits. Stars: ".data ++ natStr r.stargazers_count
                ++ ", Forks: ".data ++ natStr r.forks_count) ∧
      (∀ e ∈ (fetch_github_data g u rs).experience,
          ∃ r ∈ rs, r.fork = false ∧ Significant r ∧
            e.description
              = (r.description.getD ("A project".data)) ++ ". Technologies: ".data
                ++ joinComma r.languages ++ ". Made ".data ++ natStr r.commit_count
                ++ " commits. Stars: ".data ++ natStr r.stargazers_count
                ++ ", Forks: ".data ++ natStr r.forks_count) := by
  intro g u rs
  constructor
  · intro p hp
    rcases foldl_projects_spec (sortRepos rs) ⟨[], [], []⟩ p hp with h | ⟨r, hr, hf, hsig, hpr⟩
    · simp at h
    · exact ⟨r, (List.mem_insertionSort _).mp hr, hf, hsig, by rw [hpr]; rfl⟩
  · intro e he
    rcases foldl_experience_spec (sortRepos rs) ⟨[], [], []⟩ e he with h | ⟨r, hr, hf, hsig, her⟩
    · simp at h
    · exact ⟨r, (List.mem_insertionSort _).mp hr, hf, hsig, by rw [her]; rfl⟩

/-- Witness for C7 (amended) at the empty-description repository. -/
theorem C7_description_composition_witness :
    ∃ r ∈ [emptyDescRepo], r.fork = false ∧ Significant r ∧
      (projectOf emptyDescRepo).description
        = (r.description.getD ("A project".data)) ++ ". Technologies: ".data
          ++ joinComma r.languages ++ ". Made ".data ++ natStr r.commit_count
          ++ " commits. Stars: ".data ++ natStr r.stargazers_count
          ++ ", Forks: ".data ++ natStr r.forks_count :=
  (C7_description_composition sampleUrl sampleProfile [emptyDescRepo]).1
    (projectOf emptyDescRepo) (by decide)

set_option maxRecDepth 8192 in
/-- C8 counterexample: the contact fragment contains the `Portfolio` link
even though the blog URL is empty — the code has no omission logic and always
emits both `\href` links. -/
theorem C8_contact_counterexample :
    emptyBlogFacts.blog = [] ∧
    ("Portfolio".data <:+: contactSection emptyBlogFacts) ∧
    ("\\href\x7b\x7d\x7bPortfolio\x7d".data <:+: contactSection emptyBlogFacts) := by
  refine ⟨rfl, by decide, by decide⟩

/-- C8 (amended): for every `ResumeFacts` value the contact fragment contains
both the `GitHub`-labelled and the `Portfolio`-labelled link, regardless of
whether the profile or blog URL is empty (an empty URL is rendered as
`\href{}{...}`). -/
theorem C8_contact_always_both_links :
    ∀ d : ResumeFacts,
      ("GitHub".data <:+: contactSection d) ∧
      ("Portfolio".data <:+: contactSection d) := by
  intro d
  have hg : sanitize ("GitHub".data) = "GitHub".data := by decide
  have hp : sanitize ("Portfolio".data) = "Portfolio".data := by decide
  constructor
  · refine ⟨"\\begin\x7bcenter\x7d\n\\small ".data ++ sanitize d.email
      ++ " $|$ \\href\x7b".data ++ sanitize d.profile_url ++ "\x7d\x7b".data,
      "\x7d $|$ \\href\x7b".data ++ sanitize d.blog ++ "\x7d\x7b".data
      ++ sanitize ("Portfolio".data) ++ "\x7d\n\\end\x7bcenter\x7d".data, ?_⟩
    unfold contactSection
    rw [hg]
    simp only [List.append_assoc]
  · refine ⟨"\\begin\x7bcenter\x7d\n\\small ".data ++ sanitize d.email
      ++ " $|$ \\href\x7b".data ++ sanitize d.profile_url ++ "\x7d\x7b".data
      ++ sanitize ("GitHub".data) ++ "\x7d $|$ \\href\x7b".data ++ sanitize d.blog
      ++ "\x7d\x7b".data,
      "\x7d\n\\end\x7bcenter\x7d".data, ?_⟩
    unfold contactSection
    rw [hp]

/-- C9 counterexample: `sanitize` neither drops non-printable characters nor
trims whitespace — on `" \x01x"` the output keeps the leading space and the
control character `\x01`. -/
theorem C9_sanitize_counterexample :
    (sanitize (" \x01x".data)).head? = some ' ' ∧ pyIsSpace ' ' = true ∧
    Char.ofNat 1 ∈ sanitize (" \x01x".data) ∧
    pyIsPrintable (Char.ofNat 1) = false := by
  exact ⟨by decide, by decide, by decide, by decide⟩

/-- C9 (amended): both sanitizers strip every character with code point at
least 128 and map `"café🎉"` to `"caf"`; but only `escape_latex` additionally
drops non-printable characters and trims surrounding whitespace — its output
is all printable ASCII with no leading or trailing whitespace. -/
theorem C9_sanitizer_output :
    (∀ (s : List Char) (c : Char), c ∈ sanitize s → c.toNat < 128) ∧
    sanitize ("café🎉".data) = "caf".data ∧
    (∀ (s : List Char) (c : Char), c ∈ escape_latex s →
        pyIsPrintable c = true ∧ c.toNat < 128) ∧
    (∀ (s : List Char) (c : Char),
        (escape_latex s).head? = some c → pyIsSpace c = false) ∧
    (∀ (s : List Char) (c : Char),
        (escape_latex s).getLast? = some c → pyIsSpace c = false) ∧
    escape_latex ("café🎉".data) = "caf".data := by
  have hrep : ∀ kv ∈ sanitizeReplacements, ∀ x ∈ kv.2, x.toNat < 128 := by decide
  refine ⟨?_, by decide, ?_, ?_, ?_, by decide⟩
  · intro s c h
    unfold sanitize at h
    by_cases hs : s = []
    · rw [if_pos hs] at h
      simp at h
    · rw [if_neg hs] at h
      rcases mem_applyCharReplacements h with h1 | ⟨kv, hkv, hx⟩
      · exact of_decide_eq_true (List.mem_filter.mp h1).2
      · exact hrep kv hkv c hx
  · intro s c h
    unfold escape_latex at h
    by_cases hs : s = []
    · rw [if_pos hs] at h
      simp at h
    · rw [if_neg hs] at h
      simp only at h
      have h1 := mem_pyStrip h
      have h2 := (List.mem_filter.mp h1).2
      refine ⟨h2, ?_⟩
      have : c.toNat ≤ 126 := by
        unfold pyIsPrintable at h2
        simp at h2
        exact h2.2
      omega
  · intro s c h
    unfold escape_latex at h
    by_cases hs : s = []
    · rw [if_pos hs] at h
      simp at h
    · rw [if_neg hs] at h
      simp only at h
      exact pyStrip_head? h
  · intro s c h
    unfold escape_latex at h
    by_cases hs : s = []
    · rw [if_pos hs] at h
      simp at h
    · rw [if_neg hs] at h
      simp only at h
      exact pyStrip_getLast? h

/-- Witness for C9 (amended) at concrete inputs. -/
theorem C9_sanitizer_output_witness :
    ('c'.toNat < 128) ∧ (pyIsPrintable 'f' = true ∧ 'f'.toNat < 128) ∧
    pyIsSpace 'c' = false ∧ pyIsSpace 'f' = false := by
  refine ⟨C9_sanitizer_output.1 ("café🎉".data) 'c' (by decide),
    C9_sanitizer_output.2.2.1 ("café🎉".data) 'f' (by decide),
    C9_sanitizer_output.2.2.2.1 ("café🎉".data) 'c' (by decide),
    C9_sanitizer_output.2.2.2.2.1 ("café🎉".data) 'f' (by decide)⟩

/-- C10: in `escape_latex` the backslash is escaped first and the braces of
its replacement `\textbackslash{}` are then re-escaped by the later `{` and
`}` substitutions, so a backslash ultimately becomes `\textbackslash\{\}`
(never the plain `\textbackslash{}`): `escape_latex "\" = "\textbackslash\{\}"`,
and for every input containing a backslash the output contains
`\textbackslash\{\}` as a substring. -/
theorem C10_escape_latex_backslash :
    escape_latex ("\\".data) = "\\textbackslash\\\x7b\\\x7d".data ∧
    escape_latex ("\\".data) ≠ "\\textbackslash\x7b\x7d".data ∧
    (∀ s : List Char, '\\' ∈ s →
        "\\textbackslash\\\x7b\\\x7d".data <:+: escape_latex s) := by
  refine ⟨by decide, by decide, ?_⟩
  intro s hs
  have hsne : s ≠ [] := by rintro rfl; simp at hs
  have h1 : '\\' ∈ s.filter (fun c => decide (c.toNat < 128)) :=
    List.mem_filter.mpr ⟨hs, by decide⟩
  obtain ⟨a, b, hab⟩ := List.append_of_mem h1
  have hACR : applyCharReplacements escapeLatexReplacements ("\\textbackslash\x7b\x7d".data)
      = "\\textbackslash\\\x7b\\\x7d".data := by decide
  have hfil : ("\\textbackslash\\\x7b\\\x7d".data).filter pyIsPrintable
      = "\\textbackslash\\\x7b\\\x7d".data := by decide
  unfold escape_latex
  rw [if_neg hsne]
  simp only
  rw [hab, pyReplace_singleton, List.flatMap_append, List.flatMap_cons,
      if_pos rfl, applyCharReplacements_append, applyCharReplacements_append,
      List.filter_append, List.filter_append, hACR, hfil]
  apply infix_pyStrip (by decide) (by decide)
  exact ⟨_, _, (List.append_assoc _ _ _)⟩

/-- Witness for C10 at the single-backslash input. -/
theorem C10_escape_latex_backslash_witness :
    "\\textbackslash\\\x7b\\\x7d".data <:+: escape_latex ("\\".data) :=
  C10_escape_latex_backslash.2.2 ("\\".data) (by decide)
end ResumeGen
